import Mathlib

/-!
Shallow embedding of the battery-twin dashboard's core pipeline
(`src/app.py` and `src/utils/data_generator.py`):

* the range loader `load_generated_data(start_date, end_date)`;
* the report builder `generate_report(df)` (gap fill, numeric coercion and
  the scalar summary; the `detailed_metrics` serialization is presentation
  glue with no claim about it and is not modelled);
* the synthetic generator `generate_battery_data(start_date, end_date)`.

Modelling conventions:

* Python/NumPy floats are modelled as exact rationals (`ℚ`); the two float
  infinities get an explicit representative, and NaN — which pandas treats
  as "missing" everywhere the modelled code touches it (`fillna`, `mean`,
  `max`, `to_numeric(errors='coerce')`) — is modelled as `Option.none`.
* A pandas `DataFrame` built from a list of JSON objects is modelled as the
  list of rows, each row an association list from column name to an optional
  cell value (`none` models an explicit JSON `null`, which still makes the
  column exist); the frame's column set is the union of the rows' keys.
* Errors (`ValueError` from the empty/date-less check, `KeyError` from a
  missing required column, `ValueError` from `int(nan)`, and the loader's
  `strptime` failures) are modelled with `Except`.
-/

deriving instance DecidableEq for Except

/-- A calendar date `(year, month, day)` as produced by Python
`datetime.strptime(s, "%Y-%m-%d")`. Comparison of valid dates is
lexicographic, matching `datetime` ordering. -/
structure PyDate where
  year : Nat
  month : Nat
  day : Nat
deriving DecidableEq, Repr

/-- `datetime` comparison `a <= b` (lexicographic on year, month, day). -/
def dateLe (a b : PyDate) : Bool :=
  if a.year ≠ b.year then decide (a.year < b.year)
  else if a.month ≠ b.month then decide (a.month < b.month)
  else decide (a.day ≤ b.day)

/-- Gregorian leap-year rule, as implemented by Python's `datetime`. -/
def isLeap (y : Nat) : Bool :=
  (y % 4 == 0 && y % 100 != 0) || y % 400 == 0

/-- Number of days in month `m` of year `y` (Python `calendar` rule). -/
def daysInMonth (y m : Nat) : Nat :=
  if m == 2 then (if isLeap y then 29 else 28)
  else if m == 4 || m == 6 || m == 9 || m == 11 then 30
  else 31

/-- Split a character list at each `'-'`. -/
def splitDash : List Char → List (List Char)
  | [] => [[]]
  | c :: rest =>
    match splitDash rest with
    | [] => [[]]
    | g :: gs => if c = '-' then [] :: g :: gs else (c :: g) :: gs

/-- Value of a non-empty all-ASCII-digit character group, `none` otherwise. -/
def digitsVal (l : List Char) : Option Nat :=
  if l ≠ [] ∧ l.all Char.isDigit then
    some (l.foldl (fun a c => a * 10 + (c.toNat - 48)) 0)
  else none

/-- `datetime.strptime(s, "%Y-%m-%d")`: three dash-separated ASCII digit
groups (`%Y` up to four digits, `%m`/`%d` up to two), year in
`datetime`'s `MINYEAR..MAXYEAR` and month/day within calendar range;
any other input raises, modelled as `none`. (Non-ASCII unicode digits,
which CPython's `strptime` also accepts, are out of modelled scope.) -/
def parseDate (s : String) : Option PyDate :=
  match splitDash s.toList with
  | [ys, ms, ds] =>
    match digitsVal ys, digitsVal ms, digitsVal ds with
    | some y, some m, some d =>
      if ys.length ≤ 4 ∧ ms.length ≤ 2 ∧ ds.length ≤ 2 ∧
         1 ≤ y ∧ 1 ≤ m ∧ m ≤ 12 ∧ 1 ≤ d ∧ d ≤ daysInMonth y m then
        some ⟨y, m, d⟩
      else none
    | _, _, _ => none
  | _ => none

/-- One cell value of the tabular data: a finite float (as an exact
rational), one of the two float infinities (`inf true` is `+∞`), a string,
or a parsed date (`pandas.Timestamp`, produced by the loader's
`pd.to_datetime`). NaN is not a `Val`: pandas treats it as missing, so a
NaN cell is `(none : Option Val)`. -/
inductive Val where
  | num (q : ℚ)
  | inf (pos : Bool)
  | str (s : String)
  | date (d : PyDate)
deriving DecidableEq, Repr

/-- One row of the frame: column name to optional value. A key mapped to
`none` models JSON `null` (the column exists, the cell is NaN); an absent
key models a column this row does not populate (also NaN in the frame). -/
abbrev Row : Type := List (String × Option Val)

/-- A data frame built from a list of JSON objects, modelled as its rows in
order. -/
abbrev Frame : Type := List Row

/-- Cell of row `r` in column `c`: NaN (`none`) when the key is absent or
explicitly null. -/
def cellVal (r : Row) (c : String) : Option Val :=
  (List.lookup c r).join

/-- `c ∈ df.columns`: some row carries key `c`. -/
def hasCol (t : Frame) (c : String) : Bool :=
  t.any (fun r => r.any (fun p => p.1 == c))

/-- `df.empty`: no rows, or no columns at all (every row an empty object). -/
def dfEmpty (t : Frame) : Bool :=
  t.isEmpty || t.all (fun r => r.isEmpty)

/-- Column `c` of the frame as the list of raw cells, in row order. -/
def rawCol (t : Frame) (c : String) : List (Option Val) :=
  t.map (fun r => cellVal r c)

/-- `df.replace([np.inf, -np.inf], np.nan)` on one cell: infinities become
NaN, everything else is unchanged. -/
def deinf : Option Val → Option Val
  | some (Val.inf _) => none
  | some (Val.num q) => some (Val.num q)
  | some (Val.str s) => some (Val.str s)
  | some (Val.date d) => some (Val.date d)
  | none => none

/-- `fillna(method='ffill')` on one column: each NaN cell takes the last
non-NaN value above it (`prev` is that carried value, `none` above row 0). -/
def ffillFrom (prev : Option Val) : List (Option Val) → List (Option Val)
  | [] => []
  | v :: rest =>
    match v with
    | some x => some x :: ffillFrom (some x) rest
    | none => prev :: ffillFrom prev rest

/-- Column `c` after `df.replace([np.inf, -np.inf], np.nan).fillna(method='ffill')`. -/
def procCol (t : Frame) (c : String) : List (Option Val) :=
  ffillFrom none ((rawCol t c).map deinf)

/-- `pd.to_numeric(·, errors='coerce')` on one value: finite numbers and
infinities pass through, anything non-numeric coerces to NaN. (Numeric
string literals, which `to_numeric` would parse, and `Timestamp` cells in a
numeric column are out of modelled scope: fixture values of the numeric
columns are JSON numbers.) -/
def coerceV : Val → Option Val
  | Val.num q => some (Val.num q)
  | Val.inf b => some (Val.inf b)
  | Val.str _ => none
  | Val.date _ => none

/-- Column `c` after gap fill and numeric coercion — the data the summary
statistics in `generate_report` are computed from. -/
def numCol (t : Frame) (c : String) : List (Option Val) :=
  (procCol t c).map (fun o => o.bind coerceV)

/-- Extract the rational of a finite numeric cell. -/
def cellQ : Option Val → Option ℚ
  | some (Val.num q) => some q
  | _ => none

/-- Column `c` as optional rationals. Justified by `numCol_none_or_num`:
after `replace([±inf], nan)` ran before the fill, a processed numeric
column holds only NaN and finite numbers, so this loses nothing. -/
def qCol (t : Frame) (c : String) : List (Option ℚ) :=
  (numCol t c).map cellQ

/-- NaN-skipping maximum (`Series.max()`): `none` when every cell is NaN.
(`max` is associative and commutative, so the traversal direction is
immaterial.) -/
def colMax : List (Option ℚ) → Option ℚ
  | [] => none
  | none :: rest => colMax rest
  | some q :: rest =>
    match colMax rest with
    | none => some q
    | some m => some (max q m)

/-- Sum of the non-NaN cells. -/
def colSum : List (Option ℚ) → ℚ
  | [] => 0
  | none :: rest => colSum rest
  | some q :: rest => q + colSum rest

/-- Number of non-NaN cells. -/
def colCount : List (Option ℚ) → Nat
  | [] => 0
  | none :: rest => colCount rest
  | some _ :: rest => colCount rest + 1

/-- NaN-skipping arithmetic mean (`Series.mean()`): `none` (NaN) when every
cell is NaN. -/
def colMean (l : List (Option ℚ)) : Option ℚ :=
  if colCount l = 0 then none else some (colSum l / colCount l)

/-- `Series.iloc[0]` of a column (as a NaN-able scalar). -/
def firstCell (l : List (Option ℚ)) : Option ℚ := l.head?.join

/-- `Series.iloc[-1]` of a column (as a NaN-able scalar). -/
def lastCell (l : List (Option ℚ)) : Option ℚ := l.getLast?.join

/-- Python `int(q)`: truncation toward zero. Both division operands are
non-negative in each branch, so every integer-division convention agrees. -/
def pyInt (q : ℚ) : ℤ :=
  if 0 ≤ q then q.num / (q.den : ℤ) else -((-q).num / ((-q).den : ℤ))

/-- `float(1 - last/first)` under IEEE float semantics on NaN-able scalars:
NaN in, NaN out; division by zero yields an infinity (`0/0` yields NaN), and
`1 - ±∞ = ∓∞`. -/
def pyFade (lastv firstv : Option ℚ) : Option Val :=
  match lastv, firstv with
  | some a, some b =>
    if b = 0 then
      if a = 0 then none else some (Val.inf (decide (a < 0)))
    else some (Val.num (1 - a / b))
  | _, _ => none

/-- The scalar summary block of the report. `total_cycles` is the `int(...)`
result; the other three are floats, NaN-able (`capacity_fade` can also be an
infinity when the first capacity is zero). -/
structure Summary where
  total_cycles : ℤ
  avg_temperature : Option ℚ
  capacity_fade : Option Val
  max_resistance : Option ℚ
deriving DecidableEq, Repr

/-- The ways `generate_report` raises: the explicit
`ValueError("Invalid data for report generation")`, a `KeyError` from
`df[c]` on an absent required column, and the `ValueError` from `int(nan)`
when the cycles column is entirely NaN. -/
inductive ReportError where
  | invalidInput
  | missingColumn (c : String)
  | nanToInt
deriving DecidableEq, Repr

/-- The required numeric columns, in the order the summary dict accesses
them. -/
def reqCols : List String := ["cycles", "temperature", "capacity_ah", "internal_resistance"]

/-- `generate_report(df)` (summary part). Mirrors `src/app.py` line by line:
the empty/date-less guard; `replace([±inf], nan).fillna(method='ffill')`;
`to_numeric(errors='coerce')` over the numeric columns that exist; then the
summary dict, whose entries evaluate in order — each `df[c]` on an absent
column raises `KeyError` at that point, and `int` of an all-NaN maximum
raises. Columns are only read through `numCol`, which applies fill and
coercion exactly as the mutated `df` carries them. -/
def generate_report (t : Frame) : Except ReportError Summary :=
  if dfEmpty t || !hasCol t "date" then Except.error ReportError.invalidInput
  else if !hasCol t "cycles" then Except.error (ReportError.missingColumn "cycles")
  else
    match colMax (qCol t "cycles") with
    | none => Except.error ReportError.nanToInt
    | some mx =>
      if !hasCol t "temperature" then Except.error (ReportError.missingColumn "temperature")
      else if !hasCol t "capacity_ah" then Except.error (ReportError.missingColumn "capacity_ah")
      else if !hasCol t "internal_resistance" then
        Except.error (ReportError.missingColumn "internal_resistance")
      else
        Except.ok
          { total_cycles := pyInt mx
            avg_temperature := colMean (qCol t "temperature")
            capacity_fade := pyFade (lastCell (qCol t "capacity_ah")) (firstCell (qCol t "capacity_ah"))
            max_resistance := colMax (qCol t "internal_resistance") }

/-!
## The range loader

`load_generated_data` walks `data/<year>/<quarter>/<month>.json`. The
directory tree is modelled as nested association lists in `os.listdir`
order (which the code takes as it comes). A year directory exists exactly
when its number is a key of `Store.years`; on a real filesystem directory
names are unique, which well-formedness hypotheses state where needed.
The final `pd.DataFrame(data)` / `pd.to_datetime` conversion preserves the
record sequence, so the loader is modelled as returning the filtered
records themselves.
-/

/-- A month file: its name and its parsed JSON array of records. -/
abbrev MonthFile : Type := String × List Row

/-- A quarter directory: its name and its month files in listing order. -/
abbrev QuarterDir : Type := String × List MonthFile

/-- The `data/` fixture tree: year number to that year's quarter listing. -/
structure Store where
  years : List (Nat × List QuarterDir)

/-- The loader's uncaught exceptions: `strptime` raising `ValueError` on a
malformed date string, or `TypeError` on a non-string `entry['date']`. -/
inductive LoadError where
  | badDate
deriving DecidableEq, Repr

/-- The per-entry loop body over one month file's records: entries without
a `date` key are skipped; an unparseable present `date` raises; otherwise
the entry is kept iff its date lies in `[start_dt, end_dt]`. -/
def filterFile (d1 d2 : PyDate) : List Row → Except LoadError (List Row)
  | [] => Except.ok []
  | e :: rest =>
    match List.lookup "date" e with
    | none => filterFile d1 d2 rest
    | some none => Except.error LoadError.badDate
    | some (some (Val.str s)) =>
      match parseDate s with
      | none => Except.error LoadError.badDate
      | some dt =>
        (filterFile d1 d2 rest).bind fun tail =>
          if dateLe d1 dt && dateLe dt d2 then Except.ok (e :: tail) else Except.ok tail
    | some (some _) => Except.error LoadError.badDate

/-- Loop over the month files of one quarter directory, concatenating in
listing order. -/
def loadFiles (d1 d2 : PyDate) : List MonthFile → Except LoadError (List Row)
  | [] => Except.ok []
  | f :: fs =>
    (filterFile d1 d2 f.2).bind fun here =>
      (loadFiles d1 d2 fs).bind fun rest => Except.ok (here ++ rest)

/-- Loop over the quarter directories of one year directory. -/
def loadListing (d1 d2 : PyDate) : List QuarterDir → Except LoadError (List Row)
  | [] => Except.ok []
  | q :: qs =>
    (loadFiles d1 d2 q.2).bind fun here =>
      (loadListing d1 d2 qs).bind fun rest => Except.ok (here ++ rest)

/-- The `while current_year <= end_date.year` loop, already unrolled over
the list of year numbers to visit: a year without a directory is skipped
(`os.path.exists` guard), an existing one contributes its records. -/
def loadYears (s : Store) (d1 d2 : PyDate) : List Nat → Except LoadError (List Row)
  | [] => Except.ok []
  | y :: ys =>
    match List.lookup y s.years with
    | none => loadYears s d1 d2 ys
    | some listing =>
      (loadListing d1 d2 listing).bind fun here =>
        (loadYears s d1 d2 ys).bind fun rest => Except.ok (here ++ rest)

/-- `load_generated_data(start_date, end_date)` over fixture store `s`:
visit the years `start_date.year .. end_date.year` in order and collect the
records whose `date` falls in the inclusive range. -/
def load_generated_data (s : Store) (d1 d2 : PyDate) : Except LoadError (List Row) :=
  loadYears s d1 d2 (List.range' d1.year (d2.year + 1 - d1.year))

/-!
## The synthetic generator

`generate_battery_data` iterates one day at a time from `start_date` to
`end_date`. Dates are modelled as day ordinals (`ℕ`), which preserves
chronological order; `days_since_start` is the offset from the start.
The random fields (`voltage`, `current`, `temperature`, `state_of_charge`)
are not modelled; the deterministic fields are. Python computes
`int(days_since_start / 3)` with float division — exact for every offset
a two-year (or any realistic) range produces — modelled as `ℕ` floor
division, which equals truncation on non-negative values.
-/

/-- The deterministic fields of one generated entry. -/
structure GenEntry where
  date : Nat
  cycles : Nat
  capacity_ah : ℚ
  internal_resistance : ℚ
deriving DecidableEq, Repr

/-- `degradation = 1 - days_since_start * 0.00015`. -/
def degradation (off : Nat) : ℚ := 1 - (off : ℚ) * (15 / 100000)

/-- The entry generated for day `start + off`. -/
def genEntry (start off : Nat) : GenEntry :=
  { date := start + off
    cycles := off / 3
    capacity_ah := 100 * degradation off
    internal_resistance := (1 / 10) * (1 + (off : ℚ) * (2 / 10000)) }

/-- `generate_battery_data(start, end)` as the flat generated series in
generation (and hence chronological) order; the `data` dict groups this
series by month key without reordering it. -/
def generate_battery_data (start endD : Nat) : List GenEntry :=
  (List.range (endD + 1 - start)).map (genEntry start)

/-!
## Specification predicates and concrete fixtures

`numColVals` states that a column is fully populated with finite numbers —
the "valid values" precondition several spec sentences assume. The concrete
frames and stores below instantiate the spec's scenarios and exhibit
counterexamples.
-/

/-- Column `c` of frame `t` holds exactly the finite numbers `qs`, one per
row in order: every cell present and numeric ("valid values"). -/
abbrev numColVals (t : Frame) (c : String) (qs : List ℚ) : Prop :=
  rawCol t c = qs.map (fun q => some (Val.num q))

/-- The record `e` carries a `date` string that parses to a date inside
`[d1, d2]` — the loader's keep condition. -/
def inRangeRecord (d1 d2 : PyDate) (e : Row) : Prop :=
  ∃ str dt, List.lookup "date" e = some (some (Val.str str)) ∧
    parseDate str = some dt ∧ dateLe d1 dt = true ∧ dateLe dt d2 = true

/-- The record `e` is stored somewhere below the year directory `y` (in any
quarter directory, in any month file). -/
abbrev recordInYearDir (s : Store) (y : Nat) (e : Row) : Prop :=
  ∃ p ∈ s.years, p.1 = y ∧ ∃ q ∈ p.2, ∃ f ∈ q.2, e ∈ f.2

/-- A complete daily record (the non-`date` numeric columns the summary
needs; the fixture columns `voltage`/`current`/`state_of_charge` play no
part in any claim and are left out of the fixtures). -/
def mkRow (d : String) (cyc temp cap res : ℚ) : Row :=
  [("date", some (Val.str d)), ("cycles", some (Val.num cyc)),
   ("temperature", some (Val.num temp)), ("capacity_ah", some (Val.num cap)),
   ("internal_resistance", some (Val.num res))]

/-- The spec's §8 scenario: three daily records dated 2024-01-01..03 with
`capacity_ah = [100, 99, 98]`. -/
def scenFrame : Frame :=
  [mkRow "2024-01-01" 10 30 100 (1/10),
   mkRow "2024-01-02" 20 31 99 (1/10),
   mkRow "2024-01-03" 30 32 98 (3/20)]

/-- A frame whose second record is missing `temperature` (the §8 gap-fill
scenario). -/
def gapFrame : Frame :=
  [mkRow "2024-01-01" 10 30 100 (1/10),
   [("date", some (Val.str "2024-01-02")), ("cycles", some (Val.num 20)),
    ("capacity_ah", some (Val.num 99)), ("internal_resistance", some (Val.num (1/10)))]]

/-- A one-record frame: its reversal is itself, so `capacity_fade` cannot
differ between the two. -/
def oneRowFrame : Frame := [mkRow "2024-01-01" 10 30 100 (1/10)]

/-- A frame with a `date` column, a `cycles` column holding only a
non-coercible string, and no other required column. -/
def nanCyclesFrame : Frame :=
  [[("date", some (Val.str "2024-01-01")), ("cycles", some (Val.str "junk"))]]

/-- A frame with a `date` column but no `cycles` column. -/
def noCyclesFrame : Frame :=
  [[("date", some (Val.str "2024-01-01")), ("temperature", some (Val.num 30))]]

/-- A store holding one record dated 2024-06-01 but misfiled under the 2023
year directory; a directory for 2024 also exists (empty). -/
def misfiledStore : Store :=
  ⟨[(2023, [("Q2", [("06.json", [[("date", some (Val.str "2024-06-01"))]])])]),
    (2024, [])]⟩

/-- The record misfiled in `misfiledStore`. -/
def misfiledRow : Row := [("date", some (Val.str "2024-06-01"))]

/-- A well-filed store: one record dated 2024-01-05 under `data/2024/Q1/01.json`. -/
def wfStore : Store :=
  ⟨[(2024, [("Q1", [("01.json", [[("date", some (Val.str "2024-01-05")),
                                  ("cycles", some (Val.num 3))]])])])]⟩

/-- The record `wfStore` holds. -/
def wfRow : Row := [("date", some (Val.str "2024-01-05")), ("cycles", some (Val.num 3))]

/-- A store whose only month file holds a record with an unparseable `date`
string before a well-dated record. -/
def badDateStore : Store :=
  ⟨[(2024, [("Q1", [("01.json",
      [[("date", some (Val.str "not-a-date"))],
       [("date", some (Val.str "2024-01-05"))]])])])]⟩

/-- The same store with the malformed record's `date` key dropped
instead. -/
def skipStore : Store :=
  ⟨[(2024, [("Q1", [("01.json",
      [[("voltage", some (Val.num 48))],
       [("date", some (Val.str "2024-01-05"))]])])])]⟩

/-- The empty fixture store: no year directory at all. -/
def emptyStore : Store := ⟨[]⟩

/-!
## Helper lemmas

Facts about rows, columns and the gap-fill/coercion pipeline, shared by the
claim theorems below.
-/

theorem row_lookup_eq_none_iff (r : Row) (c : String) :
    List.lookup c r = none ↔ ∀ p ∈ r, p.1 ≠ c := by
  induction r with
  | nil => simp
  | cons p rest ih =>
    obtain ⟨k, v⟩ := p
    by_cases h : c = k
    · subst h
      simp [List.lookup]
    · simp only [List.lookup, beq_false_of_ne h, List.mem_cons, forall_eq_or_imp]
      constructor
      · intro hrest
        exact ⟨fun hk => h hk.symm, (ih.mp hrest)⟩
      · intro hall
        exact ih.mpr hall.2

theorem row_any_eq_false_iff (r : Row) (c : String) :
    (r.any fun p => p.1 == c) = false ↔ List.lookup c r = none := by
  rw [row_lookup_eq_none_iff]
  simp

theorem hasCol_eq_false_iff (t : Frame) (c : String) :
    hasCol t c = false ↔ ∀ r ∈ t, List.lookup c r = none := by
  unfold hasCol
  simp only [List.any_eq_false, Bool.not_eq_true, ← Bool.eq_false_iff]
  constructor
  · intro h r hr
    exact (row_any_eq_false_iff r c).mp (by simpa using h r hr)
  · intro h r hr
    simpa using (row_any_eq_false_iff r c).mpr (h r hr)

theorem hasCol_true_of_lookup {t : Frame} {r : Row} {c : String}
    (hr : r ∈ t) (h : (List.lookup c r).isSome = true) : hasCol t c = true := by
  by_contra hfalse
  have hnone := (hasCol_eq_false_iff t c).mp (Bool.eq_false_iff.mpr hfalse) r hr
  rw [hnone] at h
  simp at h

theorem frame_ne_nil_of_hasCol {t : Frame} {c : String} (h : hasCol t c = true) :
    t ≠ [] := by
  intro he
  subst he
  simp [hasCol] at h

theorem dfEmpty_false_of_hasCol {t : Frame} {c : String} (h : hasCol t c = true) :
    dfEmpty t = false := by
  simp only [hasCol, List.any_eq_true] at h
  obtain ⟨r, hr, p, hpr, _⟩ := h
  simp only [dfEmpty, Bool.or_eq_false_iff]
  constructor
  · rcases t with _ | _ <;> simp_all
  · rw [Bool.eq_false_iff]
    intro hall
    simp only [List.all_eq_true] at hall
    have := hall r hr
    rcases r with _ | _ <;> simp_all

theorem ffillFrom_length (prev : Option Val) (l : List (Option Val)) :
    (ffillFrom prev l).length = l.length := by
  induction l generalizing prev with
  | nil => rfl
  | cons v rest ih => cases v <;> simp [ffillFrom, ih]

theorem ffillFrom_map_some (prev : Option Val) (xs : List Val) :
    ffillFrom prev (xs.map some) = xs.map some := by
  induction xs generalizing prev with
  | nil => rfl
  | cons x rest ih => simp [ffillFrom, ih]

theorem numColVals_length {t : Frame} {c : String} {qs : List ℚ}
    (h : numColVals t c qs) : qs.length = t.length := by
  have := congrArg List.length h
  simpa [rawCol] using this.symm

theorem qCol_of_numColVals {t : Frame} {c : String} {qs : List ℚ}
    (h : numColVals t c qs) : qCol t c = qs.map some := by
  unfold qCol numCol procCol
  rw [numColVals] at h
  rw [h]
  have hdeinf : (qs.map fun q => some (Val.num q)).map deinf
      = (qs.map Val.num).map some := by
    simp [List.map_map, Function.comp, deinf]
  rw [hdeinf, ffillFrom_map_some]
  simp [List.map_map, Function.comp, coerceV, cellQ]

theorem hasCol_of_numColVals {t : Frame} {c : String} {qs : List ℚ}
    (h : numColVals t c qs) (ht : t ≠ []) : hasCol t c = true := by
  rcases t with _ | ⟨r, rest⟩
  · exact absurd rfl ht
  · rcases qs with _ | ⟨q, qrest⟩
    · exact absurd (congrArg List.length h) (by simp [rawCol])
    · have hcell : cellVal r c = some (Val.num q) := by
        have := congrArg List.head? h
        simpa [rawCol] using this
      have : (List.lookup c r).isSome = true := by
        unfold cellVal at hcell
        rcases hlk : List.lookup c r with _ | v
        · rw [hlk] at hcell; simp [Option.join] at hcell
        · simp
      exact hasCol_true_of_lookup (List.mem_cons_self r rest) this

theorem colMax_spec (qs : List ℚ) (h : qs ≠ []) :
    ∃ m, colMax (qs.map some) = some m ∧ m ∈ qs ∧ ∀ x ∈ qs, x ≤ m := by
  induction qs with
  | nil => exact absurd rfl h
  | cons q rest ih =>
    rcases rest with _ | ⟨r, rs⟩
    · exact ⟨q, by simp [colMax], by simp, by simp⟩
    · obtain ⟨m, hm, hmem, hub⟩ := ih (by simp)
      refine ⟨max q m, ?_, ?_, ?_⟩
      · have h1 : colMax (List.map some (q :: r :: rs))
            = match colMax (List.map some (r :: rs)) with
              | none => some q
              | some m' => some (max q m') := rfl
        rw [h1, hm]
      · rcases max_choice q m with hc | hc
        · simp [hc]
        · simp [hc, List.mem_cons_of_mem _ hmem]
      · intro x hx
        rcases List.mem_cons.mp hx with hx | hx
        · subst hx; exact le_max_left _ _
        · exact le_trans (hub x hx) (le_max_right _ _)

theorem colSum_map_some (qs : List ℚ) : colSum (qs.map some) = qs.sum := by
  induction qs with
  | nil => rfl
  | cons q rest ih => simp [colSum, ih]

theorem colCount_map_some (qs : List ℚ) : colCount (qs.map some) = qs.length := by
  induction qs with
  | nil => rfl
  | cons q rest ih => simp [colCount, ih]

theorem colMean_map_some (qs : List ℚ) (h : qs ≠ []) :
    colMean (qs.map some) = some (qs.sum / qs.length) := by
  rw [colMean, colSum_map_some, colCount_map_some]
  rw [if_neg (by simpa using fun hl => h (List.length_eq_zero.mp hl))]

theorem firstCell_map_some (qs : List ℚ) : firstCell (qs.map some) = qs.head? := by
  rcases qs with _ | ⟨q, rest⟩ <;> simp [firstCell]

theorem lastCell_map_some (qs : List ℚ) : lastCell (qs.map some) = qs.getLast? := by
  rw [lastCell, List.getLast?_map]
  rcases h : qs.getLast? with _ | q <;> simp

theorem pyInt_intCast (k : ℤ) : pyInt ((k : ℚ)) = k := by
  rw [pyInt]
  rcases le_or_lt 0 k with hk | hk
  · rw [if_pos (by exact_mod_cast hk)]
    simp [Rat.num_intCast, Rat.den_intCast]
  · rw [if_neg (not_le.mpr (by exact_mod_cast hk))]
    rw [show -((k : ℚ)) = ((-k : ℤ) : ℚ) by push_cast; ring]
    simp [Rat.num_intCast, Rat.den_intCast]

/-- Evaluation of `generate_report` when every guard passes: the summary is
built from the processed columns. -/
theorem generate_report_ok_eq (t : Frame) (mx : ℚ)
    (hd : hasCol t "date" = true)
    (hcy : hasCol t "cycles" = true) (hte : hasCol t "temperature" = true)
    (hca : hasCol t "capacity_ah" = true) (hre : hasCol t "internal_resistance" = true)
    (hmx : colMax (qCol t "cycles") = some mx) :
    generate_report t = Except.ok
      { total_cycles := pyInt mx
        avg_temperature := colMean (qCol t "temperature")
        capacity_fade := pyFade (lastCell (qCol t "capacity_ah")) (firstCell (qCol t "capacity_ah"))
        max_resistance := colMax (qCol t "internal_resistance") } := by
  rw [generate_report]
  rw [dfEmpty_false_of_hasCol hd, hd, hcy, hte, hca, hre, hmx]
  simp

theorem deinf_ne_inf (x : Option Val) (b : Bool) : deinf x ≠ some (Val.inf b) := by
  rcases x with _ | v
  · simp [deinf]
  · cases v <;> simp [deinf]

theorem ffillFrom_mem (prev : Option Val) (l : List (Option Val)) :
    ∀ o ∈ ffillFrom prev l, o = prev ∨ o ∈ l := by
  induction l generalizing prev with
  | nil => simp [ffillFrom]
  | cons v rest ih =>
    intro o ho
    rcases v with _ | x
    · rw [show ffillFrom prev (none :: rest) = prev :: ffillFrom prev rest from rfl] at ho
      rcases List.mem_cons.mp ho with h | h
      · exact Or.inl h
      · rcases ih prev o h with h2 | h2
        · exact Or.inl h2
        · exact Or.inr (List.mem_cons_of_mem _ h2)
    · rw [show ffillFrom prev (some x :: rest) = some x :: ffillFrom (some x) rest from rfl] at ho
      rcases List.mem_cons.mp ho with h | h
      · exact Or.inr (h ▸ List.mem_cons_self _ _)
      · rcases ih (some x) o h with h2 | h2
        · exact Or.inr (h2 ▸ List.mem_cons_self _ _)
        · exact Or.inr (List.mem_cons_of_mem _ h2)

/-- Fidelity of `qCol`: since `replace([±inf], nan)` runs before the fill,
a processed numeric column holds only NaN and finite numbers — no
infinity survives into the summary statistics. -/
theorem numCol_none_or_num (t : Frame) (c : String) :
    ∀ o ∈ numCol t c, o = none ∨ ∃ q, o = some (Val.num q) := by
  intro o ho
  rw [numCol] at ho
  rcases List.mem_map.mp ho with ⟨p, hp, rfl⟩
  rw [procCol] at hp
  rcases ffillFrom_mem none _ p hp with rfl | hmem
  · exact Or.inl rfl
  · rcases List.mem_map.mp hmem with ⟨x, _, rfl⟩
    rcases x with _ | v
    · exact Or.inl rfl
    · cases v with
      | num q => exact Or.inr ⟨q, rfl⟩
      | inf b => exact Or.inl rfl
      | str s => exact Or.inl rfl
      | date d => exact Or.inl rfl

theorem hasCol_date_of_lookup {t : Frame}
    (ht : t ≠ []) (hdate : ∀ r ∈ t, (List.lookup "date" r).isSome = true) :
    hasCol t "date" = true := by
  rcases t with _ | ⟨r, rest⟩
  · exact absurd rfl ht
  · exact hasCol_true_of_lookup (List.mem_cons_self _ _) (hdate _ (List.mem_cons_self _ _))

theorem ne_nil_of_numColVals {t : Frame} {c : String} {qs : List ℚ}
    (h : numColVals t c qs) (ht : t ≠ []) : qs ≠ [] := by
  intro h0
  subst h0
  have hlen := numColVals_length h
  simp only [List.length_nil] at hlen
  exact ht (List.length_eq_zero.mp hlen.symm)

/-!
## Claim theorems
-/

/-- Shared helper: on a valid frame the report succeeds and its
`capacity_fade` is `1 - last/first` over the capacity column. -/
theorem report_fade_of_valid
    (t : Frame) (cy te ca re : List ℚ) (qf ql : ℚ)
    (ht : t ≠ [])
    (hdate : ∀ r ∈ t, (List.lookup "date" r).isSome = true)
    (hcy : numColVals t "cycles" cy) (hte : numColVals t "temperature" te)
    (hca : numColVals t "capacity_ah" ca) (hre : numColVals t "internal_resistance" re)
    (hf : ca.head? = some qf) (hl : ca.getLast? = some ql) (hq : qf ≠ 0) :
    ∃ s, generate_report t = Except.ok s ∧
      s.capacity_fade = some (Val.num (1 - ql / qf)) := by
  obtain ⟨m, hm, _, _⟩ := colMax_spec cy (ne_nil_of_numColVals hcy ht)
  have hmax : colMax (qCol t "cycles") = some m := by
    rw [qCol_of_numColVals hcy]; exact hm
  refine ⟨_, generate_report_ok_eq t m (hasCol_date_of_lookup ht hdate)
    (hasCol_of_numColVals hcy ht) (hasCol_of_numColVals hte ht)
    (hasCol_of_numColVals hca ht) (hasCol_of_numColVals hre ht) hmax, ?_⟩
  show pyFade (lastCell (qCol t "capacity_ah")) (firstCell (qCol t "capacity_ah")) = _
  rw [qCol_of_numColVals hca, lastCell_map_some, firstCell_map_some, hf, hl]
  simp [pyFade, hq]

/-- Claim C1: for every non-empty frame of daily records with valid
(present, finite, numeric) values in the four required columns and a
nonzero first capacity, `generate_report` succeeds and returns
`capacity_fade = 1 - capacity_ah[last] / capacity_ah[first]`, first/last
taken in table order. -/
theorem capacity_fade_eq_one_sub_last_div_first
    (t : Frame) (cy te ca re : List ℚ) (qf ql : ℚ)
    (ht : t ≠ [])
    (hdate : ∀ r ∈ t, (List.lookup "date" r).isSome = true)
    (hcy : numColVals t "cycles" cy) (hte : numColVals t "temperature" te)
    (hca : numColVals t "capacity_ah" ca) (hre : numColVals t "internal_resistance" re)
    (hf : ca.head? = some qf) (hl : ca.getLast? = some ql) (hq : qf ≠ 0) :
    ∃ s, generate_report t = Except.ok s ∧
      s.capacity_fade = some (Val.num (1 - ql / qf)) :=
  report_fade_of_valid t cy te ca re qf ql ht hdate hcy hte hca hre hf hl hq

-- Witness for C1: the spec's scenario — records dated 2024-01-01..03 with
-- `capacity_ah = [100, 99, 98]` yield `capacity_fade = 1 - 98/100 = 1/50 = 0.02`.
unseal Rat.mul Rat.inv Rat.add Rat.sub in
theorem capacity_fade_eq_one_sub_last_div_first_witness :
    (1 - 98 / 100 : ℚ) = 1 / 50 ∧
    ∃ s, generate_report scenFrame = Except.ok s ∧
      s.capacity_fade = some (Val.num (1 - 98 / 100)) :=
  ⟨by decide,
   capacity_fade_eq_one_sub_last_div_first scenFrame
     [10, 20, 30] [30, 31, 32] [100, 99, 98] [1/10, 1/10, 3/20] 100 98
     (by decide) (by decide) (by decide) (by decide) (by decide) (by decide)
     (by decide) (by decide) (by decide)⟩

/-- Claim C2: for every non-empty frame of daily records with valid values —
the cycles column holding integers — `generate_report` succeeds and returns
`total_cycles` equal to the maximum of the cycles values, as an integer
(Python `int(...)` of the float maximum). -/
theorem total_cycles_eq_max_cycles
    (t : Frame) (ks : List ℤ) (te ca re : List ℚ)
    (ht : t ≠ [])
    (hdate : ∀ r ∈ t, (List.lookup "date" r).isSome = true)
    (hcy : numColVals t "cycles" (ks.map (fun k : ℤ => (k : ℚ))))
    (hte : numColVals t "temperature" te)
    (hca : numColVals t "capacity_ah" ca) (hre : numColVals t "internal_resistance" re) :
    ∃ s, generate_report t = Except.ok s ∧
      s.total_cycles ∈ ks ∧ ∀ k ∈ ks, k ≤ s.total_cycles := by
  have hksne : (ks.map (fun k : ℤ => (k : ℚ))) ≠ [] := ne_nil_of_numColVals hcy ht
  obtain ⟨m, hm, hmem, hub⟩ := colMax_spec _ hksne
  have hmax : colMax (qCol t "cycles") = some m := by
    rw [qCol_of_numColVals hcy]; exact hm
  rcases List.mem_map.mp hmem with ⟨k, hk, rfl⟩
  refine ⟨_, generate_report_ok_eq t _ (hasCol_date_of_lookup ht hdate)
    (hasCol_of_numColVals hcy ht) (hasCol_of_numColVals hte ht)
    (hasCol_of_numColVals hca ht) (hasCol_of_numColVals hre ht) hmax, ?_, ?_⟩
  · show pyInt ((k : ℚ)) ∈ ks
    rw [pyInt_intCast]; exact hk
  · intro k2 hk2
    show k2 ≤ pyInt ((k : ℚ))
    rw [pyInt_intCast]
    exact_mod_cast hub _ (List.mem_map_of_mem _ hk2)

-- Witness for C2: the scenario frame's cycles column is [10, 20, 30], and
-- the returned total_cycles is its true maximum.
unseal Rat.mul Rat.inv Rat.add Rat.sub in
theorem total_cycles_eq_max_cycles_witness :
    ∃ s, generate_report scenFrame = Except.ok s ∧
      s.total_cycles ∈ ([10, 20, 30] : List ℤ) ∧
      ∀ k ∈ ([10, 20, 30] : List ℤ), k ≤ s.total_cycles :=
  total_cycles_eq_max_cycles scenFrame [10, 20, 30]
    [30, 31, 32] [100, 99, 98] [1/10, 1/10, 3/20]
    (by decide) (by decide) (by decide) (by decide) (by decide) (by decide)

/-- Claim C3: `generate_report` fails with the InvalidInput error exactly
when its input frame is empty or no row carries a `date` key; any other
outcome (success, a missing-column error, the int(nan) error) is not
InvalidInput. -/
theorem invalid_input_iff_empty_or_dateless (t : Frame) :
    generate_report t = Except.error ReportError.invalidInput ↔
      (t = [] ∨ ∀ r ∈ t, List.lookup "date" r = none) := by
  constructor
  · intro h
    by_contra hnot
    push_neg at hnot
    obtain ⟨htne, r, hr, hlr⟩ := hnot
    have hd : hasCol t "date" = true :=
      hasCol_true_of_lookup hr (Option.ne_none_iff_isSome.mp hlr)
    have hguard : (dfEmpty t || !hasCol t "date") = false := by
      rw [dfEmpty_false_of_hasCol hd, hd]; rfl
    rw [generate_report, hguard] at h
    simp only [Bool.false_eq_true, if_false] at h
    cases hcy : hasCol t "cycles" <;> rw [hcy] at h
    · simp at h
    · simp only [Bool.not_true, Bool.false_eq_true, if_false] at h
      rcases hmx : colMax (qCol t "cycles") with _ | m <;> rw [hmx] at h
      · simp at h
      · cases hte : hasCol t "temperature" <;> rw [hte] at h
        · simp at h
        · simp only [Bool.not_true, Bool.false_eq_true, if_false] at h
          cases hca : hasCol t "capacity_ah" <;> rw [hca] at h
          · simp at h
          · simp only [Bool.not_true, Bool.false_eq_true, if_false] at h
            cases hre : hasCol t "internal_resistance" <;> rw [hre] at h <;> simp at h
  · intro h
    rcases h with rfl | hall
    · rfl
    · have hcol : hasCol t "date" = false := (hasCol_eq_false_iff t "date").mpr hall
      rw [generate_report, hcol]
      simp

-- Witness for C3: the empty frame is rejected with InvalidInput.
theorem invalid_input_iff_empty_or_dateless_witness :
    generate_report ([] : Frame) = Except.error ReportError.invalidInput :=
  (invalid_input_iff_empty_or_dateless []).mpr (Or.inl rfl)

theorem ffillFrom_getElem_some (prev : Option Val) (l : List (Option Val)) (i : Nat) (v : Val)
    (h : l[i]? = some (some v)) : (ffillFrom prev l)[i]? = some (some v) := by
  induction l generalizing prev i with
  | nil => simp at h
  | cons x rest ih =>
    rcases i with _ | j
    · simp only [List.getElem?_cons_zero, Option.some.injEq] at h
      subst h
      rw [show ffillFrom prev (some v :: rest) = some v :: ffillFrom (some v) rest from rfl]
      exact List.getElem?_cons_zero
    · simp only [List.getElem?_cons_succ] at h
      cases x <;> simpa [ffillFrom] using ih _ _ h

theorem ffillFrom_getElem_zero_none (l : List (Option Val))
    (h : l[0]? = some none) : (ffillFrom none l)[0]? = some none := by
  rcases l with _ | ⟨x, rest⟩
  · simp at h
  · simp only [List.getElem?_cons_zero, Option.some.injEq] at h
    subst h
    rw [show ffillFrom none (none :: rest) = none :: ffillFrom none rest from rfl]
    exact List.getElem?_cons_zero

theorem ffillFrom_getElem_succ_none (prev : Option Val) (l : List (Option Val)) (i : Nat)
    (h : l[i + 1]? = some none) :
    (ffillFrom prev l)[i + 1]? = (ffillFrom prev l)[i]? := by
  induction l generalizing prev i with
  | nil => simp at h
  | cons x rest ih =>
    simp only [List.getElem?_cons_succ] at h
    rcases i with _ | j
    · rcases rest with _ | ⟨r0, rest2⟩
      · simp at h
      · simp only [List.getElem?_cons_zero, Option.some.injEq] at h
        subst h
        cases x with
        | some y =>
          rw [show ffillFrom prev (some y :: none :: rest2)
              = some y :: some y :: ffillFrom (some y) rest2 from rfl]
          simp [List.getElem?_cons_zero]
        | none =>
          rw [show ffillFrom prev (none :: none :: rest2)
              = prev :: prev :: ffillFrom prev rest2 from rfl]
          simp [List.getElem?_cons_zero]
    · cases x with
      | some y =>
        rw [show ffillFrom prev (some y :: rest) = some y :: ffillFrom (some y) rest from rfl]
        simpa using ih (some y) j h
      | none =>
        rw [show ffillFrom prev (none :: rest) = prev :: ffillFrom prev rest from rfl]
        simpa using ih prev j h

/-- Claim C6: in `generate_report`, each missing-or-infinite cell of a column
is forward-filled: row 0 stays missing if missing, any later missing row
takes the (already filled) value of the row above, present finite values are
untouched — and the summary (here `avg_temperature`) is computed from the
filled column. -/
theorem gap_fill_forward_fill (t : Frame) (c : String) :
    (procCol t c).length = t.length ∧
    (∀ cv : Option Val, (rawCol t c)[0]? = some cv → deinf cv = none →
      (procCol t c)[0]? = some none) ∧
    (∀ (i : Nat) (cv : Option Val), (rawCol t c)[i + 1]? = some cv → deinf cv = none →
      (procCol t c)[i + 1]? = (procCol t c)[i]?) ∧
    (∀ (i : Nat) (cv : Option Val) (v : Val), (rawCol t c)[i]? = some cv → deinf cv = some v →
      (procCol t c)[i]? = some (some v)) ∧
    (∀ s, generate_report t = Except.ok s →
      s.avg_temperature = colMean (qCol t "temperature")) := by
  refine ⟨?_, ?_, ?_, ?_, ?_⟩
  · rw [procCol, ffillFrom_length, List.length_map, rawCol, List.length_map]
  · intro cv h0 hd
    rw [procCol]
    apply ffillFrom_getElem_zero_none
    rw [List.getElem?_map, h0]
    simp [hd]
  · intro i cv hi hd
    rw [procCol]
    apply ffillFrom_getElem_succ_none
    rw [List.getElem?_map, hi]
    simp [hd]
  · intro i cv v hi hd
    rw [procCol]
    have hmap : (List.map deinf (rawCol t c))[i]? = some (deinf cv) := by
      rw [List.getElem?_map, hi]
      rfl
    rw [hd] at hmap
    exact ffillFrom_getElem_some none _ i v hmap
  · intro s hs
    rw [generate_report] at hs
    split at hs
    · exact absurd hs (by simp)
    · split at hs
      · exact absurd hs (by simp)
      · split at hs
        · exact absurd hs (by simp)
        · split at hs
          · exact absurd hs (by simp)
          · split at hs
            · exact absurd hs (by simp)
            · split at hs
              · exact absurd hs (by simp)
              · rw [Except.ok.injEq] at hs
                rw [← hs]

-- Witness for C6: in `gapFrame` the second record is missing `temperature`;
-- after the fill it carries the first record's 30, and the report's
-- avg_temperature is the mean of the filled column, 30.
unseal Rat.mul Rat.inv Rat.add Rat.sub in
theorem gap_fill_forward_fill_witness :
    ((procCol gapFrame "temperature")[1]? = (procCol gapFrame "temperature")[0]? ∧
     (procCol gapFrame "temperature")[0]? = some (some (Val.num 30))) ∧
    ∃ s, generate_report gapFrame = Except.ok s ∧ s.avg_temperature = some 30 :=
  ⟨⟨(gap_fill_forward_fill gapFrame "temperature").2.2.1 0 none (by decide) (by decide),
    (gap_fill_forward_fill gapFrame "temperature").2.2.2.1 0 (some (Val.num 30)) (Val.num 30)
      (by decide) (by decide)⟩,
   ⟨{ total_cycles := 20, avg_temperature := some 30,
      capacity_fade := some (Val.num (1 - 99 / 100)), max_resistance := some (1 / 10) },
    by decide, by decide⟩⟩

theorem numColVals_reverse {t : Frame} {c : String} {qs : List ℚ}
    (h : numColVals t c qs) : numColVals t.reverse c qs.reverse := by
  unfold numColVals rawCol at *
  rw [List.map_reverse, h, List.map_reverse]

-- Counterexample to C7 as stated: a one-record table is its own reversal
-- after the loop, and its capacity fade (0) is unchanged by reversal — the
-- fades do not differ for every non-empty table.
unseal Rat.mul Rat.inv Rat.add Rat.sub in
theorem capacity_fade_reverse_equal_on_oneRowFrame :
    oneRowFrame ≠ [] ∧
    ∃ s s2, generate_report oneRowFrame = Except.ok s ∧
      generate_report oneRowFrame.reverse = Except.ok s2 ∧
      s.capacity_fade = s2.capacity_fade :=
  ⟨by decide,
   { total_cycles := 10, avg_temperature := some 30,
     capacity_fade := some (Val.num (1 - 100 / 100)), max_resistance := some (1 / 10) },
   { total_cycles := 10, avg_temperature := some 30,
     capacity_fade := some (Val.num (1 - 100 / 100)), max_resistance := some (1 / 10) },
   by decide, by decide, rfl⟩

/-- Claim C7 (amended): for every non-empty frame of valid daily records
whose first and last capacity values are positive and distinct, the
`capacity_fade` computed by `generate_report` on the frame differs from the
one computed on the reversed frame — first/last-in-table-order semantics,
not first/last-by-date. -/
theorem capacity_fade_reverse_differs
    (t : Frame) (cy te ca re : List ℚ) (qf ql : ℚ)
    (ht : t ≠ [])
    (hdate : ∀ r ∈ t, (List.lookup "date" r).isSome = true)
    (hcy : numColVals t "cycles" cy) (hte : numColVals t "temperature" te)
    (hca : numColVals t "capacity_ah" ca) (hre : numColVals t "internal_resistance" re)
    (hf : ca.head? = some qf) (hl : ca.getLast? = some ql)
    (hfpos : 0 < qf) (hlpos : 0 < ql) (hne : qf ≠ ql) :
    ∃ s s2, generate_report t = Except.ok s ∧
      generate_report t.reverse = Except.ok s2 ∧
      s.capacity_fade ≠ s2.capacity_fade := by
  obtain ⟨s, hs, hsf⟩ := report_fade_of_valid t cy te ca re qf ql
    ht hdate hcy hte hca hre hf hl (ne_of_gt hfpos)
  obtain ⟨s2, hs2, hs2f⟩ := report_fade_of_valid t.reverse cy.reverse te.reverse ca.reverse re.reverse ql qf
    (by simpa using ht) (fun r hr => hdate r (List.mem_reverse.mp hr))
    (numColVals_reverse hcy) (numColVals_reverse hte)
    (numColVals_reverse hca) (numColVals_reverse hre)
    (by rw [List.head?_reverse, hl]) (by rw [List.getLast?_reverse, hf])
    (ne_of_gt hlpos)
  refine ⟨s, s2, hs, hs2, ?_⟩
  rw [hsf, hs2f]
  intro hcontra
  simp only [Option.some.injEq, Val.num.injEq] at hcontra
  have hdiv : ql / qf = qf / ql := by linarith
  rw [div_eq_div_iff (ne_of_gt hfpos) (ne_of_gt hlpos)] at hdiv
  rcases mul_self_eq_mul_self_iff.mp hdiv with h | h
  · exact hne h.symm
  · nlinarith

-- Witness for the amended C7: the scenario frame (capacities 100 .. 98)
-- has different fades forwards (1 - 98/100) and backwards (1 - 100/98).
unseal Rat.mul Rat.inv Rat.add Rat.sub in
theorem capacity_fade_reverse_differs_witness :
    ∃ s s2, generate_report scenFrame = Except.ok s ∧
      generate_report scenFrame.reverse = Except.ok s2 ∧
      s.capacity_fade ≠ s2.capacity_fade :=
  capacity_fade_reverse_differs scenFrame
    [10, 20, 30] [30, 31, 32] [100, 99, 98] [1/10, 1/10, 3/20] 100 98
    (by decide) (by decide) (by decide) (by decide) (by decide) (by decide)
    (by decide) (by decide) (by decide) (by decide) (by decide)

-- Counterexample to C8 as stated: `nanCyclesFrame` is non-empty, has a date
-- column, and lacks the required columns temperature / capacity_ah /
-- internal_resistance — yet `generate_report` raises the int(nan)
-- ValueError (the cycles column coerces to all-NaN), not MissingColumn.
theorem missing_column_preempted_by_nan_cycles :
    nanCyclesFrame ≠ [] ∧
    hasCol nanCyclesFrame "date" = true ∧
    hasCol nanCyclesFrame "temperature" = false ∧
    hasCol nanCyclesFrame "capacity_ah" = false ∧
    hasCol nanCyclesFrame "internal_resistance" = false ∧
    generate_report nanCyclesFrame = Except.error ReportError.nanToInt :=
  ⟨by decide, by decide, by decide, by decide, by decide, by decide⟩

/-- Claim C8 (amended): on a non-empty frame with a date column, a missing
required numeric column yields the missing-column error, provided the
cycles column — which the summary reads first — has a numeric maximum when
present (otherwise `int(nan)` raises before any `KeyError`); and on a frame
whose four required columns are all present and valid, the report succeeds
no matter which other columns are absent. -/
theorem missing_column_error :
    (∀ t : Frame, t ≠ [] →
      (∃ r ∈ t, (List.lookup "date" r).isSome = true) →
      (∃ c ∈ reqCols, hasCol t c = false) →
      (hasCol t "cycles" = true → colMax (qCol t "cycles") ≠ none) →
      ∃ c ∈ reqCols, hasCol t c = false ∧
        generate_report t = Except.error (ReportError.missingColumn c)) ∧
    (∀ (t : Frame) (cy te ca re : List ℚ), t ≠ [] →
      (∀ r ∈ t, (List.lookup "date" r).isSome = true) →
      numColVals t "cycles" cy → numColVals t "temperature" te →
      numColVals t "capacity_ah" ca → numColVals t "internal_resistance" re →
      ∃ s, generate_report t = Except.ok s) := by
  constructor
  · intro t ht hdate hex hnan
    obtain ⟨r, hr, hlk⟩ := hdate
    have hd : hasCol t "date" = true := hasCol_true_of_lookup hr hlk
    have hguard : (dfEmpty t || !hasCol t "date") = false := by
      rw [dfEmpty_false_of_hasCol hd, hd]; rfl
    cases hcy : hasCol t "cycles"
    · refine ⟨"cycles", by simp [reqCols], hcy, ?_⟩
      rw [generate_report, hguard, hcy]
      simp
    · obtain ⟨m, hm⟩ := Option.ne_none_iff_exists'.mp (hnan hcy)
      cases hte : hasCol t "temperature"
      · refine ⟨"temperature", by simp [reqCols], hte, ?_⟩
        rw [generate_report, hguard, hcy, hm, hte]
        simp
      · cases hca : hasCol t "capacity_ah"
        · refine ⟨"capacity_ah", by simp [reqCols], hca, ?_⟩
          rw [generate_report, hguard, hcy, hm, hte, hca]
          simp
        · cases hre : hasCol t "internal_resistance"
          · refine ⟨"internal_resistance", by simp [reqCols], hre, ?_⟩
            rw [generate_report, hguard, hcy, hm, hte, hca, hre]
            simp
          · exfalso
            obtain ⟨c, hc, hcf⟩ := hex
            simp only [reqCols, List.mem_cons, List.not_mem_nil, or_false] at hc
            rcases hc with rfl | rfl | rfl | rfl <;> simp_all
  · intro t cy te ca re ht hdate hcy hte hca hre
    obtain ⟨m, hm, _, _⟩ := colMax_spec cy (ne_nil_of_numColVals hcy ht)
    have hmax : colMax (qCol t "cycles") = some m := by
      rw [qCol_of_numColVals hcy]; exact hm
    exact ⟨_, generate_report_ok_eq t m (hasCol_date_of_lookup ht hdate)
      (hasCol_of_numColVals hcy ht) (hasCol_of_numColVals hte ht)
      (hasCol_of_numColVals hca ht) (hasCol_of_numColVals hre ht) hmax⟩

-- Witness for the amended C8: `noCyclesFrame` (date column, no cycles)
-- gets a missing-column error; `scenFrame` — which lacks the non-required
-- voltage / current / state_of_charge columns — succeeds.
unseal Rat.mul Rat.inv Rat.add Rat.sub in
theorem missing_column_error_witness :
    (∃ c ∈ reqCols, hasCol noCyclesFrame c = false ∧
      generate_report noCyclesFrame = Except.error (ReportError.missingColumn c)) ∧
    (∃ s, generate_report scenFrame = Except.ok s) :=
  ⟨missing_column_error.1 noCyclesFrame (by decide)
     ⟨[("date", some (Val.str "2024-01-01")), ("temperature", some (Val.num 30))],
      by decide, by decide⟩
     ⟨"cycles", by decide, by decide⟩
     (fun h => absurd h (by decide)),
   missing_column_error.2 scenFrame [10, 20, 30] [30, 31, 32] [100, 99, 98]
     [1/10, 1/10, 3/20] (by decide) (by decide) (by decide) (by decide)
     (by decide) (by decide)⟩

/-- Claim C9: in the synthetic generator's output, `cycles` is a
non-decreasing integer counter as the record date advances: any two
generated entries with ordered dates have ordered cycles. -/
theorem generated_cycles_monotone (start endD : Nat) :
    ∀ e1 ∈ generate_battery_data start endD, ∀ e2 ∈ generate_battery_data start endD,
      e1.date ≤ e2.date → e1.cycles ≤ e2.cycles := by
  intro e1 h1 e2 h2 hdate
  rw [generate_battery_data] at h1 h2
  rcases List.mem_map.mp h1 with ⟨o1, _, rfl⟩
  rcases List.mem_map.mp h2 with ⟨o2, _, rfl⟩
  have hoff : o1 ≤ o2 := by
    have := hdate
    simp only [genEntry] at this
    omega
  simp only [genEntry]
  exact Nat.div_le_div_right hoff

-- Witness for C9 on the concrete two-week range [0, 13]: day 3 (cycles 1)
-- versus day 10 (cycles 3).
unseal Rat.mul Rat.inv Rat.add Rat.sub in
theorem generated_cycles_monotone_witness :
    genEntry 0 3 ∈ generate_battery_data 0 13 ∧
    genEntry 0 10 ∈ generate_battery_data 0 13 ∧
    (genEntry 0 3).cycles ≤ (genEntry 0 10).cycles :=
  ⟨by decide, by decide,
   generated_cycles_monotone 0 13 (genEntry 0 3) (by decide) (genEntry 0 10) (by decide)
     (by decide)⟩

theorem dateLe_year {a b : PyDate} (h : dateLe a b = true) : a.year ≤ b.year := by
  by_cases h1 : a.year = b.year
  · exact le_of_eq h1
  · rw [dateLe, if_pos h1] at h
    exact le_of_lt (of_decide_eq_true h)

theorem dateLe_antisymm {a b : PyDate} (h1 : dateLe a b = true) (h2 : dateLe b a = true) :
    a = b := by
  obtain ⟨ya, ma, da⟩ := a
  obtain ⟨yb, mb, db⟩ := b
  unfold dateLe at h1 h2
  simp only [PyDate.mk.injEq]
  split_ifs at h1 h2 <;> simp_all <;> omega

theorem lookup_of_mem_nodup {β : Type} {l : List (Nat × β)} {k : Nat} {v : β}
    (hnd : (l.map Prod.fst).Nodup) (hmem : (k, v) ∈ l) : List.lookup k l = some v := by
  induction l with
  | nil => simp at hmem
  | cons p rest ih =>
    obtain ⟨k0, v0⟩ := p
    rcases List.mem_cons.mp hmem with heq | hrest
    · obtain ⟨rfl, rfl⟩ := Prod.mk.injEq .. ▸ heq
      · simp [List.lookup]
    · by_cases hk : k = k0
      · exfalso
        subst hk
        simp only [List.map_cons, List.nodup_cons] at hnd
        exact hnd.1 (by simpa using List.mem_map_of_mem Prod.fst hrest)
      · rw [List.lookup, beq_false_of_ne hk]
        exact ih (by simpa using (List.nodup_cons.mp (by simpa using hnd)).2) hrest

theorem filterFile_sound (d1 d2 : PyDate) :
    ∀ (es l : List Row), filterFile d1 d2 es = Except.ok l →
      ∀ e ∈ l, inRangeRecord d1 d2 e := by
  intro es
  induction es with
  | nil =>
    intro l h e he
    rw [filterFile] at h
    cases h
    simp at he
  | cons e0 rest ih =>
    intro l h e he
    rw [filterFile] at h
    split at h
    · exact ih l h e he
    · exact Except.noConfusion h
    · rename_i ds heq
      split at h
      · exact Except.noConfusion h
      · rename_i dt hp
        rcases hrest : filterFile d1 d2 rest with err | tail
        all_goals rw [hrest] at h
        · simp [Except.bind] at h
        · simp only [Except.bind] at h
          by_cases hcond : (dateLe d1 dt && dateLe dt d2) = true
          · rw [if_pos hcond] at h
            cases h
            rcases List.mem_cons.mp he with rfl | htail
            · rw [Bool.and_eq_true] at hcond
              exact ⟨ds, dt, heq, hp, hcond.1, hcond.2⟩
            · exact ih tail hrest e htail
          · rw [if_neg hcond] at h
            cases h
            exact ih _ hrest e he
    · exact Except.noConfusion h

theorem filterFile_complete (d1 d2 : PyDate) :
    ∀ (es l : List Row) (e : Row), e ∈ es →
      inRangeRecord d1 d2 e →
      filterFile d1 d2 es = Except.ok l → e ∈ l := by
  intro es
  induction es with
  | nil =>
    intro l e hmem
    simp at hmem
  | cons e0 rest ih =>
    intro l e hmem hin h
    rw [filterFile] at h
    rcases List.mem_cons.mp hmem with rfl | hrest0
    · obtain ⟨ds, dt, hlk, hp, hr1, hr2⟩ := hin
      rw [hlk] at h
      simp only at h
      rw [hp] at h
      simp only at h
      rcases hrest : filterFile d1 d2 rest with err | tail
      all_goals rw [hrest] at h
      · simp [Except.bind] at h
      · simp only [Except.bind] at h
        rw [if_pos (by rw [Bool.and_eq_true]; exact ⟨hr1, hr2⟩)] at h
        cases h
        exact List.mem_cons_self _ _
    · split at h
      · exact ih l e hrest0 hin h
      · exact Except.noConfusion h
      · split at h
        · exact Except.noConfusion h
        · rcases hrest : filterFile d1 d2 rest with err | tail
          all_goals rw [hrest] at h
          · simp [Except.bind] at h
          · simp only [Except.bind] at h
            rename_i dt hp
            by_cases hcond : (dateLe d1 dt && dateLe dt d2) = true
            · rw [if_pos hcond] at h
              cases h
              exact List.mem_cons_of_mem _ (ih tail e hrest0 hin hrest)
            · rw [if_neg hcond] at h
              cases h
              exact ih _ e hrest0 hin hrest
      · exact Except.noConfusion h

theorem loadFiles_sound (d1 d2 : PyDate) :
    ∀ (fs : List MonthFile) (l : List Row), loadFiles d1 d2 fs = Except.ok l →
      ∀ e ∈ l, inRangeRecord d1 d2 e := by
  intro fs
  induction fs with
  | nil =>
    intro l h e he
    rw [loadFiles] at h
    cases h
    simp at he
  | cons f fs ih =>
    intro l h e he
    rw [loadFiles] at h
    rcases hf : filterFile d1 d2 f.2 with err | here
    all_goals rw [hf] at h
    · simp [Except.bind] at h
    · simp only [Except.bind] at h
      rcases hfs : loadFiles d1 d2 fs with err | rest
      all_goals rw [hfs] at h
      · simp [Except.bind] at h
      · simp only [Except.bind] at h
        cases h
        rcases List.mem_append.mp he with h1 | h2
        · exact filterFile_sound d1 d2 f.2 here hf e h1
        · exact ih rest hfs e h2

theorem loadFiles_complete (d1 d2 : PyDate) :
    ∀ (fs : List MonthFile) (l : List Row) (f : MonthFile) (e : Row),
      f ∈ fs → e ∈ f.2 → inRangeRecord d1 d2 e →
      loadFiles d1 d2 fs = Except.ok l → e ∈ l := by
  intro fs
  induction fs with
  | nil =>
    intro l f e hf
    simp at hf
  | cons f0 fs ih =>
    intro l f e hf he hin h
    rw [loadFiles] at h
    rcases hff : filterFile d1 d2 f0.2 with err | here
    all_goals rw [hff] at h
    · simp [Except.bind] at h
    · simp only [Except.bind] at h
      rcases hfs : loadFiles d1 d2 fs with err | rest
      all_goals rw [hfs] at h
      · simp [Except.bind] at h
      · simp only [Except.bind] at h
        cases h
        rcases List.mem_cons.mp hf with rfl | htail
        · exact List.mem_append_left _ (filterFile_complete d1 d2 f.2 here e he hin hff)
        · exact List.mem_append_right _ (ih rest f e htail he hin hfs)

theorem loadListing_sound (d1 d2 : PyDate) :
    ∀ (listing : List QuarterDir) (l : List Row), loadListing d1 d2 listing = Except.ok l →
      ∀ e ∈ l, inRangeRecord d1 d2 e := by
  intro listing
  induction listing with
  | nil =>
    intro l h e he
    rw [loadListing] at h
    cases h
    simp at he
  | cons q qs ih =>
    intro l h e he
    rw [loadListing] at h
    rcases hq : loadFiles d1 d2 q.2 with err | here
    all_goals rw [hq] at h
    · simp [Except.bind] at h
    · simp only [Except.bind] at h
      rcases hqs : loadListing d1 d2 qs with err | rest
      all_goals rw [hqs] at h
      · simp [Except.bind] at h
      · simp only [Except.bind] at h
        cases h
        rcases List.mem_append.mp he with h1 | h2
        · exact loadFiles_sound d1 d2 q.2 here hq e h1
        · exact ih rest hqs e h2

theorem loadListing_complete (d1 d2 : PyDate) :
    ∀ (listing : List QuarterDir) (l : List Row) (q : QuarterDir) (f : MonthFile) (e : Row),
      q ∈ listing → f ∈ q.2 → e ∈ f.2 → inRangeRecord d1 d2 e →
      loadListing d1 d2 listing = Except.ok l → e ∈ l := by
  intro listing
  induction listing with
  | nil =>
    intro l q f e hq
    simp at hq
  | cons q0 qs ih =>
    intro l q f e hq hf he hin h
    rw [loadListing] at h
    rcases hq0 : loadFiles d1 d2 q0.2 with err | here
    all_goals rw [hq0] at h
    · simp [Except.bind] at h
    · simp only [Except.bind] at h
      rcases hqs : loadListing d1 d2 qs with err | rest
      all_goals rw [hqs] at h
      · simp [Except.bind] at h
      · simp only [Except.bind] at h
        cases h
        rcases List.mem_cons.mp hq with rfl | htail
        · exact List.mem_append_left _ (loadFiles_complete d1 d2 q.2 here f e hf he hin hq0)
        · exact List.mem_append_right _ (ih rest q f e htail hf he hin hqs)

theorem loadYears_sound (s : Store) (d1 d2 : PyDate) :
    ∀ (ys : List Nat) (l : List Row), loadYears s d1 d2 ys = Except.ok l →
      ∀ e ∈ l, inRangeRecord d1 d2 e := by
  intro ys
  induction ys with
  | nil =>
    intro l h e he
    rw [loadYears] at h
    cases h
    simp at he
  | cons y ys ih =>
    intro l h e he
    rw [loadYears] at h
    split at h
    · exact ih l h e he
    · rename_i listing hlk
      rcases hl : loadListing d1 d2 listing with err | here
      all_goals rw [hl] at h
      · simp [Except.bind] at h
      · simp only [Except.bind] at h
        rcases hys : loadYears s d1 d2 ys with err | rest
        all_goals rw [hys] at h
        · simp [Except.bind] at h
        · simp only [Except.bind] at h
          cases h
          rcases List.mem_append.mp he with h1 | h2
          · exact loadListing_sound d1 d2 listing here hl e h1
          · exact ih rest hys e h2

theorem loadYears_complete (s : Store) (d1 d2 : PyDate) :
    ∀ (ys : List Nat) (l : List Row) (y : Nat) (listing : List QuarterDir)
      (q : QuarterDir) (f : MonthFile) (e : Row),
      y ∈ ys → List.lookup y s.years = some listing →
      q ∈ listing → f ∈ q.2 → e ∈ f.2 → inRangeRecord d1 d2 e →
      loadYears s d1 d2 ys = Except.ok l → e ∈ l := by
  intro ys
  induction ys with
  | nil =>
    intro l y listing q f e hy
    simp at hy
  | cons y0 ys ih =>
    intro l y listing q f e hy hlk hq hf he hin h
    rw [loadYears] at h
    split at h
    · rename_i hlk0
      rcases List.mem_cons.mp hy with rfl | htail
      · rw [hlk] at hlk0
        exact Option.noConfusion hlk0
      · exact ih l y listing q f e htail hlk hq hf he hin h
    · rename_i listing0 hlk0
      rcases hl : loadListing d1 d2 listing0 with err | here
      all_goals rw [hl] at h
      · simp [Except.bind] at h
      · simp only [Except.bind] at h
        rcases hys : loadYears s d1 d2 ys with err | rest
        all_goals rw [hys] at h
        · simp [Except.bind] at h
        · simp only [Except.bind] at h
          cases h
          rcases List.mem_cons.mp hy with rfl | htail
          · rw [hlk] at hlk0
            obtain rfl := Option.some.injEq .. ▸ hlk0
            exact List.mem_append_left _
              (loadListing_complete d1 d2 listing here q f e hq hf he hin hl)
          · exact List.mem_append_right _ (ih rest y listing q f e htail hlk hq hf he hin hys)

-- Counterexample to C4 as stated: `misfiledStore` holds a record dated
-- 2024-06-01 under the 2023 year directory; a directory for 2024 (the
-- record's year) also exists, and the record's date lies in the requested
-- single-day range — yet the loader succeeds with the empty result,
-- because it only reads the record's date's years, never the 2023 file.
theorem load_misses_misfiled_record :
    recordInYearDir misfiledStore 2023 misfiledRow ∧
    (List.lookup 2024 misfiledStore.years).isSome = true ∧
    List.lookup "date" misfiledRow = some (some (Val.str "2024-06-01")) ∧
    parseDate "2024-06-01" = some ⟨2024, 6, 1⟩ ∧
    dateLe ⟨2024, 6, 1⟩ ⟨2024, 6, 1⟩ = true ∧
    load_generated_data misfiledStore ⟨2024, 6, 1⟩ ⟨2024, 6, 1⟩ = Except.ok [] ∧
    misfiledRow ∉ ([] : List Row) :=
  ⟨by decide, by decide, by decide, by decide, by decide, by decide, by decide⟩

/-- Claim C4 (amended): whenever `load_generated_data` succeeds on a range
`[d1, d2]`, (a) every returned record carries a date inside the range;
(b) for a single-day range every returned record is dated exactly that day;
(c) every stored record that is filed under the year directory matching its
own date's year (as the generator files them; directory names are unique on
a filesystem) and whose date lies in the range is returned. -/
theorem load_range_sound_complete
    (s : Store) (d1 d2 : PyDate) (l : List Row)
    (hload : load_generated_data s d1 d2 = Except.ok l) :
    (∀ e ∈ l, inRangeRecord d1 d2 e) ∧
    (∀ e ∈ l, d1 = d2 → ∃ str, List.lookup "date" e = some (some (Val.str str)) ∧
      parseDate str = some d1) ∧
    (∀ (y : Nat) (e : Row),
      (s.years.map Prod.fst).Nodup →
      recordInYearDir s y e →
      ∀ (str : String) (dt : PyDate),
        List.lookup "date" e = some (some (Val.str str)) →
        parseDate str = some dt → dt.year = y →
        dateLe d1 dt = true → dateLe dt d2 = true →
        e ∈ l) := by
  rw [load_generated_data] at hload
  refine ⟨?_, ?_, ?_⟩
  · exact loadYears_sound s d1 d2 _ l hload
  · intro e he hdd
    obtain ⟨str, dt, hlk, hp, hr1, hr2⟩ := loadYears_sound s d1 d2 _ l hload e he
    subst hdd
    obtain rfl := dateLe_antisymm hr1 hr2
    exact ⟨str, hlk, hp⟩
  · intro y e hnd hrec str dt hlk hp hyr hr1 hr2
    obtain ⟨p, hpmem, hp1, q, hq, f, hf, he⟩ := hrec
    have hpy : (y, p.2) = p := by rw [← hp1]
    have hlkp : List.lookup y s.years = some p.2 := by
      rw [← hpy] at hpmem
      exact lookup_of_mem_nodup hnd hpmem
    have h1 := dateLe_year hr1
    have h2 := dateLe_year hr2
    have hy : y ∈ List.range' d1.year (d2.year + 1 - d1.year) := by
      rw [List.mem_range']
      exact ⟨y - d1.year, by omega, by omega⟩
    exact loadYears_complete s d1 d2 _ l y p.2 q f e hy hlkp hq hf he
      ⟨str, dt, hlk, hp, hr1, hr2⟩ hload

-- Witness for the amended C4: the well-filed store holds one record dated
-- 2024-01-05 under data/2024/Q1/01.json; loading the 2024 range returns
-- exactly it, and the completeness part places it in the result.
theorem load_range_sound_complete_witness :
    load_generated_data wfStore ⟨2024, 1, 1⟩ ⟨2024, 12, 31⟩ = Except.ok [wfRow] ∧
    wfRow ∈ [wfRow] :=
  ⟨by decide,
   (load_range_sound_complete wfStore ⟨2024, 1, 1⟩ ⟨2024, 12, 31⟩ [wfRow] (by decide)).2.2
     2024 wfRow (by decide) (by decide) "2024-01-05" ⟨2024, 1, 5⟩
     (by decide) (by decide) (by decide) (by decide) (by decide)⟩

/-- Claim C5: over a date range none of whose years has a directory in the
store, `load_generated_data` returns the empty sequence with no error —
each missing year directory is silently skipped. -/
theorem load_empty_when_no_year_dir (s : Store) (d1 d2 : PyDate)
    (h : ∀ y, d1.year ≤ y → y ≤ d2.year → List.lookup y s.years = none) :
    load_generated_data s d1 d2 = Except.ok [] := by
  rw [load_generated_data]
  have hgen : ∀ ys : List Nat, (∀ y ∈ ys, List.lookup y s.years = none) →
      loadYears s d1 d2 ys = Except.ok [] := by
    intro ys
    induction ys with
    | nil => intro _; rfl
    | cons y rest ih =>
      intro hall
      rw [loadYears, hall y (List.mem_cons_self _ _)]
      exact ih (fun z hz => hall z (List.mem_cons_of_mem _ hz))
  apply hgen
  intro y hy
  rw [List.mem_range'] at hy
  obtain ⟨i, hi, rfl⟩ := hy
  exact h _ (by omega) (by omega)

-- Witness for C5: the empty store over the two-year default range.
theorem load_empty_when_no_year_dir_witness :
    load_generated_data emptyStore ⟨2023, 1, 1⟩ ⟨2024, 12, 31⟩ = Except.ok [] :=
  load_empty_when_no_year_dir emptyStore ⟨2023, 1, 1⟩ ⟨2024, 12, 31⟩
    (fun _ _ _ => rfl)

/-- Claim C10: a fixture record whose `date` value is not a valid
YYYY-MM-DD string makes the loader raise the strptime error rather than
skip the record — while a record with no `date` key at all is silently
skipped (the same store with the bad record's date key removed loads
fine). -/
theorem load_raises_on_malformed_date :
    load_generated_data badDateStore ⟨2024, 1, 1⟩ ⟨2024, 12, 31⟩
      = Except.error LoadError.badDate ∧
    load_generated_data skipStore ⟨2024, 1, 1⟩ ⟨2024, 12, 31⟩
      = Except.ok [[("date", some (Val.str "2024-01-05"))]] :=
  ⟨by decide, by decide⟩
